import Mathlib

/-!
Verification of the AST indexing and position-resolution engine of the
`solidity-ast` repository (`src/lsp/ast.py`), against its natural-language
specification.

The Python module is shallowly embedded: JSON values become the inductive
`JVal`, Python `dict`s become insertion-ordered association lists, text
buffers become `List Char`, machine-independent Python integers become
`Int`/`Nat`, and file I/O becomes an explicit file-system environment.
Functions keep the source's names where Lean allows it.
-/

namespace SolAst

/-! ### JSON values (Python objects parsed by `json.load`) -/

/-- A JSON value as produced by Python's `json.load`: null, bool, int,
string, array, or string-keyed object.  Object fields are kept as an
insertion-ordered association list, mirroring Python's `dict`.
(JSON floats do not occur in the artifacts the claims concern.) -/
inductive JVal where
  | jnull
  | jbool (b : Bool)
  | jint (n : Int)
  | jstr (s : String)
  | jarr (elems : List JVal)
  | jobj (fields : List (String × JVal))

mutual

def jbeq (a b : JVal) : Bool :=
  match a, b with
  | .jnull, .jnull => true
  | .jbool x, .jbool y => x == y
  | .jint x, .jint y => x == y
  | .jstr x, .jstr y => x == y
  | .jarr x, .jarr y => jbeqList x y
  | .jobj x, .jobj y => jbeqFields x y
  | _, _ => false

def jbeqList (a b : List JVal) : Bool :=
  match a, b with
  | [], [] => true
  | x :: xs, y :: ys => jbeq x y && jbeqList xs ys
  | _, _ => false

def jbeqFields (a b : List (String × JVal)) : Bool :=
  match a, b with
  | [], [] => true
  | (k, x) :: xs, (l, y) :: ys => k == l && jbeq x y && jbeqFields xs ys
  | _, _ => false

end

mutual

theorem jbeq_iff : ∀ a b : JVal, jbeq a b = true ↔ a = b
  | .jnull, .jnull => by simp [jbeq]
  | .jbool _, .jbool _ => by simp [jbeq]
  | .jint _, .jint _ => by simp [jbeq]
  | .jstr _, .jstr _ => by simp [jbeq]
  | .jarr x, .jarr y => by
      simp only [jbeq, jbeqList_iff x y]
      constructor
      · intro h; rw [h]
      · intro h; cases h; rfl
  | .jobj x, .jobj y => by
      simp only [jbeq, jbeqFields_iff x y]
      constructor
      · intro h; rw [h]
      · intro h; cases h; rfl
  | .jnull, .jbool _ => by simp [jbeq]
  | .jnull, .jint _ => by simp [jbeq]
  | .jnull, .jstr _ => by simp [jbeq]
  | .jnull, .jarr _ => by simp [jbeq]
  | .jnull, .jobj _ => by simp [jbeq]
  | .jbool _, .jnull => by simp [jbeq]
  | .jbool _, .jint _ => by simp [jbeq]
  | .jbool _, .jstr _ => by simp [jbeq]
  | .jbool _, .jarr _ => by simp [jbeq]
  | .jbool _, .jobj _ => by simp [jbeq]
  | .jint _, .jnull => by simp [jbeq]
  | .jint _, .jbool _ => by simp [jbeq]
  | .jint _, .jstr _ => by simp [jbeq]
  | .jint _, .jarr _ => by simp [jbeq]
  | .jint _, .jobj _ => by simp [jbeq]
  | .jstr _, .jnull => by simp [jbeq]
  | .jstr _, .jbool _ => by simp [jbeq]
  | .jstr _, .jint _ => by simp [jbeq]
  | .jstr _, .jarr _ => by simp [jbeq]
  | .jstr _, .jobj _ => by simp [jbeq]
  | .jarr _, .jnull => by simp [jbeq]
  | .jarr _, .jbool _ => by simp [jbeq]
  | .jarr _, .jint _ => by simp [jbeq]
  | .jarr _, .jstr _ => by simp [jbeq]
  | .jarr _, .jobj _ => by simp [jbeq]
  | .jobj _, .jnull => by simp [jbeq]
  | .jobj _, .jbool _ => by simp [jbeq]
  | .jobj _, .jint _ => by simp [jbeq]
  | .jobj _, .jstr _ => by simp [jbeq]
  | .jobj _, .jarr _ => by simp [jbeq]

theorem jbeqList_iff : ∀ a b : List JVal, jbeqList a b = true ↔ a = b
  | [], [] => by simp [jbeqList]
  | x :: xs, y :: ys => by
      simp only [jbeqList, Bool.and_eq_true, jbeq_iff x y, jbeqList_iff xs ys,
        List.cons.injEq]
  | [], _ :: _ => by simp [jbeqList]
  | _ :: _, [] => by simp [jbeqList]

theorem jbeqFields_iff : ∀ a b : List (String × JVal), jbeqFields a b = true ↔ a = b
  | [], [] => by simp [jbeqFields]
  | (k, x) :: xs, (l, y) :: ys => by
      simp only [jbeqFields, Bool.and_eq_true, jbeq_iff x y, jbeqFields_iff xs ys,
        List.cons.injEq, Prod.mk.injEq, beq_iff_eq, and_assoc]
  | [], _ :: _ => by simp [jbeqFields]
  | _ :: _, [] => by simp [jbeqFields]

end

instance : DecidableEq JVal := fun a b =>
  decidable_of_iff (jbeq a b = true) (jbeq_iff a b)

/-- Python truthiness (`if value:`) of a JSON value: `None`, `False`, `0`,
`""`, `[]` and `{}` are falsy, everything else is truthy. -/
def JVal.truthy : JVal → Bool
  | .jnull => false
  | .jbool b => b
  | .jint n => n != 0
  | .jstr s => s != ""
  | .jarr l => !l.isEmpty
  | .jobj l => !l.isEmpty

/-- Python's `isinstance(v, int)` on a JSON value.  Python's `bool` is a
subclass of `int`, so booleans pass the check. -/
def isPyInt : JVal → Bool
  | .jint _ => true
  | .jbool _ => true
  | _ => false

/-- First-match association-list lookup: Python `dict` indexing/`in`.
(Parsed JSON objects have unique keys, and the maps this development
builds keep keys unique, so first-match agrees with `dict` semantics.) -/
def alookup {α β : Type} [DecidableEq α] : List (α × β) → α → Option β
  | [], _ => none
  | (k, v) :: rest, key => if k = key then some v else alookup rest key

/-- Association-list update: Python `d[k] = v`.  An existing key keeps its
position and gets the new value (Python `dict` update semantics); a new
key is appended at the end (Python insertion order). -/
def aset {α β : Type} [DecidableEq α] : List (α × β) → α → β → List (α × β)
  | [], k, v => [(k, v)]
  | (k', v') :: rest, k, v => if k' = k then (k, v) :: rest else (k', v') :: aset rest k v

/-- Python `value.get(key)` on a JSON value.  Only objects support `.get`;
on any non-object Python raises `AttributeError` — the embedding
totalises that unreachable-in-the-claims case as `none`. -/
def dictGet : JVal → String → Option JVal
  | .jobj fields, k => alookup fields k
  | _, _ => none

/-- The field list of a JSON object (`.items()`); Python raises on
non-objects, totalised as `[]`. -/
def asObj : JVal → List (String × JVal)
  | .jobj fields => fields
  | _ => []

/-- The element list of a JSON array; Python raises when iterating a
non-iterable, totalised as `[]`. -/
def asArr : JVal → List JVal
  | .jarr elems => elems
  | _ => []

/-- The underlying string of a JSON string.  The string-typed fields the
claims exercise (`type`, `severity`, `typeIdentifier`, paths) are strings
in every well-formed artifact; Python raises on other types, totalised
as `""`. -/
def asString : JVal → String
  | .jstr s => s
  | _ => ""

/-- Python truthiness of an optional value (`d.get(k)` result): `None` is
falsy, otherwise the value's own truthiness. -/
def optTruthy : Option JVal → Bool
  | none => false
  | some v => v.truthy

/-! ### Position codec (`lsp_position_to_byte_offset`, `byte_offset_to_lsp_position`)

A text buffer is its list of Unicode scalar values (`List Char`), exactly
the code points of a Python `str`. -/

/-- UTF-8 byte length of one character: `len(char.encode("utf-8"))`. -/
def utf8Size (c : Char) : Nat :=
  if c.toNat ≤ 0x7F then 1
  else if c.toNat ≤ 0x7FF then 2
  else if c.toNat ≤ 0xFFFF then 3
  else 4

/-- UTF-16 code units of one character:
`len(char.encode("utf-16le")) // 2` — 1 for BMP, 2 for a surrogate pair. -/
def utf16Units (c : Char) : Nat :=
  if c.toNat < 0x10000 then 1 else 2

/-- UTF-8 byte length of a buffer: `len(text.encode("utf-8"))`. -/
def utf8Len : List Char → Nat
  | [] => 0
  | c :: rest => utf8Size c + utf8Len rest

/-- UTF-16 code-unit length of a buffer:
`len(text.encode("utf-16le")) // 2`. -/
def utf16Len : List Char → Nat
  | [] => 0
  | c :: rest => utf16Units c + utf16Len rest

/-- Python `text.split(sep)` for a one-character separator: `n` separator
occurrences yield `n + 1` (possibly empty) parts; the empty text yields
`[[]]`. -/
def splitSep (sep : Char) : List Char → List (List Char)
  | [] => [[]]
  | c :: rest =>
    match splitSep sep rest with
    | [] => [[]]
    | l :: ls => if c = sep then [] :: l :: ls else (c :: l) :: ls

/-- Byte offset of the start of line `line`: the loop
`for i in range(line): line_start_bytes += len(lines[i].encode("utf-8")) + 1`
(the `+ 1` is the `"\n"` terminator; the loop's `if i < len(lines)` guard
makes it stop at the end of the list). -/
def preBytes : List (List Char) → Nat → Nat
  | _, 0 => 0
  | [], _ + 1 => 0
  | l :: ls, i + 1 => (utf8Len l + 1) + preBytes ls i

/-- The per-character scan of `lsp_position_to_byte_offset`: walk the
target line accumulating UTF-16 code units (`utf16_count`) and UTF-8
bytes (`byte_offset_in_line`) in lock-step, breaking as soon as
`utf16_count >= character_utf16`. -/
def scanToCol : List Char → Nat → Nat → Nat → Nat
  | [], _, _, byte_offset_in_line => byte_offset_in_line
  | ch :: rest, character_utf16, utf16_count, byte_offset_in_line =>
    if character_utf16 ≤ utf16_count then byte_offset_in_line
    else scanToCol rest character_utf16 (utf16_count + utf16Units ch)
      (byte_offset_in_line + utf8Size ch)

/-- `lsp_position_to_byte_offset(content, line, character_utf16)`:
LSP (line, UTF-16 column) to UTF-8 byte offset.  A line index past the
buffer saturates to the total byte length. -/
def lsp_position_to_byte_offset (content : List Char) (line : Nat)
    (character_utf16 : Nat) : Nat :=
  let lines := splitSep '\n' content
  if lines.length ≤ line then utf8Len content
  else
    let line_start_bytes := preBytes lines line
    let target_line := lines.getD line []
    line_start_bytes + scanToCol target_line character_utf16 0 0

/-- UTF-16 length of the longest character-complete prefix of `line`
whose UTF-8 encoding fits in `byte_in_line` bytes:
`len(line.encode("utf-8")[:byte_in_line].decode("utf-8", errors="ignore")
.encode("utf-16le")) // 2` — a character cut mid-sequence is dropped by
`errors="ignore"`, ending the decoded prefix. -/
def utf16OfBytePrefix : List Char → Nat → Nat
  | [], _ => 0
  | ch :: rest, byte_in_line =>
    if utf8Size ch ≤ byte_in_line then
      utf16Units ch + utf16OfBytePrefix rest (byte_in_line - utf8Size ch)
    else 0

/-- The line-scanning loop of `byte_offset_to_lsp_position`: find the
first line with `current_byte + line_bytes >= byte_offset`; the fallback
after the loop is `(len(lines) - 1, 0)`. -/
def offLoop : List (List Char) → Nat → Nat → Nat → Nat → Nat × Nat
  | [], _, _, _, total_lines => (total_lines - 1, 0)
  | line :: rest, byte_offset, current_byte, line_num, total_lines =>
    let line_bytes := utf8Len line
    if byte_offset ≤ current_byte + line_bytes then
      (line_num, utf16OfBytePrefix line (byte_offset - current_byte))
    else offLoop rest byte_offset (current_byte + line_bytes + 1) (line_num + 1)
      total_lines

/-- `byte_offset_to_lsp_position(content, byte_offset)`: UTF-8 byte
offset to LSP (line, UTF-16 column).  An offset at or past the end of
content returns the last line and its full UTF-16 length
(`content.split("\n")` is never empty, so `lines[-1]` is its last part). -/
def byte_offset_to_lsp_position (content : List Char) (byte_offset : Nat) :
    Nat × Nat :=
  if utf8Len content ≤ byte_offset then
    let lines := splitSep '\n' content
    (lines.length - 1, utf16Len (lines.getLastD []))
  else
    let lines := splitSep '\n' content
    offLoop lines byte_offset 0 0 lines.length

/-- `b` lands exactly on a UTF-8 character boundary of the buffer
(including offset `0` and the total byte length). -/
def isBoundary : List Char → Nat → Bool
  | _, 0 => true
  | [], _ + 1 => false
  | c :: rest, b + 1 =>
    if utf8Size c ≤ b + 1 then isBoundary rest (b + 1 - utf8Size c) else false

/-- Total UTF-8 byte length of a list of lines re-joined with
one-byte `"\n"` separators (specification-side measure used to relate
the split lines back to the buffer). -/
def joinBytes : List (List Char) → Nat
  | [] => 0
  | [l] => utf8Len l
  | l :: l' :: ls => utf8Len l + 1 + joinBytes (l' :: ls)

/-! ### Python `int(...)` and `parse_src` -/

/-- Strip leading and trailing whitespace, as `int(str)` does before
parsing. -/
def pyStrip (l : List Char) : List Char :=
  ((l.dropWhile (fun c => c.isWhitespace)).reverse.dropWhile
    (fun c => c.isWhitespace)).reverse

/-- After the first digit, `int(...)` accepts digits with single
underscores strictly between digits. -/
def digitsRest : List Char → Bool
  | [] => true
  | c :: rest =>
    if c.isDigit then digitsRest rest
    else if c = '_' then
      (match rest with
       | d :: _ => d.isDigit
       | [] => false) && digitsRest rest
    else false

/-- The digit body accepted by `int(...)`: nonempty, starts with a digit,
underscores only between digits. -/
def digitsCoreOk : List Char → Bool
  | [] => false
  | c :: rest => c.isDigit && digitsRest rest

/-- Numeric value of a digit string (underscores removed). -/
def digitsToNat (ds : List Char) : Nat :=
  ds.foldl (fun a c => a * 10 + (c.toNat - 48)) 0

/-- Python `int(str)`: optional surrounding whitespace, optional sign,
then a digit body; raises `ValueError` (here `none`) otherwise. -/
def pyInt (l : List Char) : Option Int :=
  let body := pyStrip l
  match body with
  | '-' :: rest =>
    if digitsCoreOk rest then some (-(digitsToNat (rest.filter (fun c => c != '_')) : Int))
    else none
  | '+' :: rest =>
    if digitsCoreOk rest then some ((digitsToNat (rest.filter (fun c => c != '_')) : Int))
    else none
  | _ =>
    if digitsCoreOk body then some ((digitsToNat (body.filter (fun c => c != '_')) : Int))
    else none

/-- `parse_src(src)`: parse the Solidity AST `src` format
`"start:length:file_id"` as three colon-separated integers; `None` on any
other shape (`len(parts) != 3` or a failing `int(...)`). -/
def parse_src (src : String) : Option (Int × Int × Int) :=
  let parts := splitSep ':' src.data
  if parts.length ≠ 3 then none
  else
    match parts with
    | [p0, p1, p2] =>
      match pyInt p0, pyInt p1, pyInt p2 with
      | some start, some length, some file_id => some (start, length, file_id)
      | _, _, _ => none
    | _ => none

/-! ### The spatial index (`AstNodeIndex`, `PositionIndex`) -/

/-- Spatial index entry for AST nodes (dataclass `AstNodeIndex`).
`node_id` is whatever `node["id"]` held (a `JVal`, since Python does not
enforce the `int` annotation); byte offsets are Python ints. -/
structure AstNodeIndex where
  node_id : JVal
  file_id : Int
  start_byte : Int
  end_byte : Int
  node_type : JVal
  node_data : JVal
  depth : Nat
  deriving DecidableEq

/-- Spatial index for position-to-node lookups (dataclass
`PositionIndex`): per-file entry buckets, the global id map, and the
file-id-to-path table, all insertion-ordered dicts. -/
structure PositionIndex where
  file_nodes : List (Int × List AstNodeIndex)
  node_by_id : List (JVal × AstNodeIndex)
  file_id_to_path : List (Int × String)

/-- The three empty `default_factory` dicts. -/
def emptyIndex : PositionIndex := ⟨[], [], []⟩

/-- The bucket-append step of `add_node`: create the file's bucket if
missing (`self.file_nodes[file_id] = []`), then append the entry. -/
def bucketAppend : List (Int × List AstNodeIndex) → Int → AstNodeIndex →
    List (Int × List AstNodeIndex)
  | [], fid, n => [(fid, [n])]
  | (k, l) :: rest, fid, n =>
    if k = fid then (k, l ++ [n]) :: rest else (k, l) :: bucketAppend rest fid n

/-- `PositionIndex.add_node`: append the entry to its file's bucket and
register it under its id (silently overwriting a previous entry with the
same id). -/
def PositionIndex.add_node (idx : PositionIndex) (node_index : AstNodeIndex) :
    PositionIndex :=
  { idx with
    file_nodes := bucketAppend idx.file_nodes node_index.file_id node_index,
    node_by_id := aset idx.node_by_id node_index.node_id node_index }

/-- The sort preorder of `finalize_index`'s key
`lambda x: (x.start_byte, -x.depth)`: `a` may precede `b` iff `a`'s key
is less than or equal to `b`'s in lexicographic order. -/
def finRel (a b : AstNodeIndex) : Prop :=
  a.start_byte < b.start_byte ∨ (a.start_byte = b.start_byte ∧ b.depth ≤ a.depth)

instance : DecidableRel finRel := fun a b =>
  inferInstanceAs (Decidable (a.start_byte < b.start_byte ∨
    (a.start_byte = b.start_byte ∧ b.depth ≤ a.depth)))

instance : IsTotal AstNodeIndex finRel :=
  ⟨fun a b => by
    unfold finRel
    rcases lt_trichotomy a.start_byte b.start_byte with h | h | h
    · exact Or.inl (Or.inl h)
    · rcases Nat.le_total b.depth a.depth with hd | hd
      · exact Or.inl (Or.inr ⟨h, hd⟩)
      · exact Or.inr (Or.inr ⟨h.symm, hd⟩)
    · exact Or.inr (Or.inl h)⟩

instance : IsTrans AstNodeIndex finRel :=
  ⟨fun a b c h1 h2 => by
    unfold finRel at h1 h2 ⊢
    rcases h1 with h1 | ⟨h1e, h1d⟩ <;> rcases h2 with h2 | ⟨h2e, h2d⟩
    · exact Or.inl (lt_trans h1 h2)
    · exact Or.inl (by omega)
    · exact Or.inl (by omega)
    · exact Or.inr ⟨by omega, Nat.le_trans h2d h1d⟩⟩

/-- `PositionIndex.finalize_index`: sort each file's bucket by
`(start_byte, -depth)`.  Python's `list.sort` is a stable sort by this
key; `List.insertionSort` is stable for the same preorder, so the two
agree extensionally. -/
def PositionIndex.finalize_index (idx : PositionIndex) : PositionIndex :=
  { idx with
    file_nodes := idx.file_nodes.map (fun p => (p.1, List.insertionSort finRel p.2)) }

/-- The sort preorder of `find_nodes_at_position`'s key
`lambda x: -x.depth`: deepest first. -/
def depthRel (a b : AstNodeIndex) : Prop := b.depth ≤ a.depth

instance : DecidableRel depthRel := fun a b =>
  inferInstanceAs (Decidable (b.depth ≤ a.depth))

instance : IsTotal AstNodeIndex depthRel := ⟨fun a b => Nat.le_total b.depth a.depth⟩

instance : IsTrans AstNodeIndex depthRel :=
  ⟨fun _ _ _ h1 h2 => Nat.le_trans h2 h1⟩

/-- `PositionIndex.find_nodes_at_position`: all entries of the file's
bucket whose half-open range `[start_byte, end_byte)` contains the
offset, then stably sorted deepest-first (`key=lambda x: -x.depth`). -/
def PositionIndex.find_nodes_at_position (idx : PositionIndex) (file_id : Int)
    (byte_offset : Int) : List AstNodeIndex :=
  match alookup idx.file_nodes file_id with
  | none => []
  | some nodes =>
    let containing_nodes := nodes.filter
      (fun node => decide (node.start_byte ≤ byte_offset ∧ byte_offset < node.end_byte))
    List.insertionSort depthRel containing_nodes

/-- `PositionIndex.find_innermost_node`: `nodes[0] if nodes else None`. -/
def PositionIndex.find_innermost_node (idx : PositionIndex) (file_id : Int)
    (byte_offset : Int) : Option AstNodeIndex :=
  (idx.find_nodes_at_position file_id byte_offset).head?

/-! ### The indexer (`Root._index_ast_nodes`) -/

/-- The keys known to hold ordered lists of child nodes (recursion
rule 1). -/
def listChildKeys : List String :=
  ["nodes", "body", "statements", "members", "parameters", "declarations",
   "symbolAliases", "arguments", "assignments", "baseContracts", "modifiers"]

/-- The keys known to hold a single child node (recursion rule 2). -/
def dictChildKeys : List String :=
  ["expression", "leftExpression", "leftHandSide", "rightExpression",
   "rightHandSide", "value", "typeName", "baseExpression", "parameters",
   "baseName", "parameterTypes", "returnParameterTypes"]

/-- Python `key in node` for an object's field list. -/
def hasKey (fields : List (String × JVal)) (k : String) : Bool :=
  (alookup fields k).isSome

/-- The self-indexing step of `_index_ast_nodes`: if the node has both
`src` and `id` and `parse_src` succeeds, emit an `AstNodeIndex` with
`end_byte = start + length`, the node's `nodeType` or `"Unknown"`, the
current depth, and the node itself as payload.  (`parse_src` is only
ever called on a string; a non-string `src` raises `AttributeError` in
Python and is totalised here as not indexed.) -/
def indexSelf (fields : List (String × JVal)) (depth : Nat)
    (idx : PositionIndex) : PositionIndex :=
  if hasKey fields "src" && hasKey fields "id" then
    match (alookup fields "src").getD .jnull with
    | .jstr s =>
      match parse_src s with
      | some (start, length, node_file_id) =>
        idx.add_node
          { node_id := (alookup fields "id").getD .jnull,
            file_id := node_file_id,
            start_byte := start,
            end_byte := start + length,
            node_type := (alookup fields "nodeType").getD (.jstr "Unknown"),
            node_data := .jobj fields,
            depth := depth }
      | none => idx
    | _ => idx
  else idx

mutual

/-- `Root._index_ast_nodes(node, file_id, depth)`: non-dicts are ignored;
a dict is indexed (`indexSelf`) and then its items are traversed by the
three recursion rules (`indexChildren`). -/
def index_ast_nodes (node : JVal) (file_id : Int) (depth : Nat)
    (idx : PositionIndex) : PositionIndex :=
  match node with
  | .jobj fields => indexChildren fields file_id depth (indexSelf fields depth idx)
  | _ => idx

/-- The `for key, value in node.items()` loop of `_index_ast_nodes`.
Rule 1: a list-child key recurses into each list element at `depth + 1`
(a non-list value under such a key gets nothing — the `elif` chain is
skipped).  Rule 2: a dict-child key recurses into a dict value at
`depth + 1`.  Rule 3 (catch-all): any other dict value carrying
`nodeType` is recursed into at `depth + 1`. -/
def indexChildren (fields : List (String × JVal)) (file_id : Int) (depth : Nat)
    (idx : PositionIndex) : PositionIndex :=
  match fields with
  | [] => idx
  | (key, value) :: rest =>
    let idx1 :=
      if key ∈ listChildKeys then
        match value with
        | .jarr elems => indexChildList elems file_id depth idx
        | _ => idx
      else if key ∈ dictChildKeys then
        match value with
        | .jobj _ => index_ast_nodes value file_id (depth + 1) idx
        | _ => idx
      else
        match value with
        | .jobj vfields =>
          if hasKey vfields "nodeType" then index_ast_nodes value file_id (depth + 1) idx
          else idx
        | _ => idx
    indexChildren rest file_id depth idx1

/-- `for child in value: self._index_ast_nodes(child, file_id, depth + 1)`. -/
def indexChildList (elems : List JVal) (file_id : Int) (depth : Nat)
    (idx : PositionIndex) : PositionIndex :=
  match elems with
  | [] => idx
  | child :: rest => indexChildList rest file_id depth (index_ast_nodes child file_id (depth + 1) idx)

end

/-! ### The loader (`Root._initialize`) -/

/-- Dataclass `SourceLocation` (fields untyped at runtime). -/
structure SourceLocation where
  file : JVal
  start : JVal
  end_ : JVal
  deriving DecidableEq

/-- Enum `Severity`. -/
inductive Severity where
  | WARNING
  | ERROR
  deriving DecidableEq

/-- Enum `ErrorType`. -/
inductive ErrorType where
  | WARNING
  | ERROR
  deriving DecidableEq

/-- Dataclass `Errors`. -/
structure Errors where
  source_location : SourceLocation
  error_type : ErrorType
  error_code : JVal
  severity : Severity
  message : JVal
  deriving DecidableEq

/-- Dataclass `SourceFile` (traversal helpers on it are dead code). -/
structure SourceFile where
  id : JVal
  ast : JVal
  deriving DecidableEq

/-- What the loader's local `s` holds when a record is appended: either a
constructed `SourceFile`, or — when the `isinstance(id, int) and ast`
check fails — the raw unparsed `source_file` value, which the code then
stores unchanged into `File.source_file`. -/
inductive SField where
  | parsed (sf : SourceFile)
  | raw (v : JVal)
  deriving DecidableEq

/-- Python truthiness of `s` at the `if s and version and ...` check: a
dataclass instance is always truthy; a raw value has its own
truthiness. -/
def SField.truthy : SField → Bool
  | .parsed _ => true
  | .raw v => v.truthy

/-- Dataclass `File`. -/
structure File where
  source_file : SField
  version : JVal
  build_id : JVal
  profile : JVal
  deriving DecidableEq

/-- Dataclass `BuildInfo` (`source_id_to_path` copied with `dict(...)`). -/
structure BuildInfo where
  id : JVal
  source_id_to_path : List (String × JVal)
  language : JVal
  deriving DecidableEq

/-- One iteration of the loader's `for file in files` loop.  Result:
`none` when nothing is appended (`source_file` missing or falsy);
`some f` when `source.append(f)` runs — note `f` itself may be Python
`None` (`some none`) when the metadata truthiness check fails, and may
carry the raw unparsed `source_file` when the id/ast shape check fails. -/
def loadFileRecord (file : JVal) : Option (Option File) :=
  let version := dictGet file "version"
  let build_id := dictGet file "build_id"
  let profile := dictGet file "profile"
  let s0 := (dictGet file "source_file").getD .jnull
  if s0.truthy then
    let id := (dictGet s0 "id").getD .jnull
    let ast := (dictGet s0 "ast").getD .jnull
    let s1 : SField :=
      if isPyInt id && ast.truthy then .parsed ⟨id, ast⟩ else .raw s0
    let f : Option File :=
      if s1.truthy && optTruthy version && optTruthy build_id && optTruthy profile then
        some ⟨s1, version.getD .jnull, build_id.getD .jnull, profile.getD .jnull⟩
      else none
    some f
  else none

/-- One iteration of the loader's `for error in _errors` loop: every
subfield is checked (`sourceLocation` subfields with `is not None`,
`type`/`severity` case-insensitively against `"warning"`/`"error"`), and
the final gate is the truthiness conjunction of all five parts. -/
def loadError (error : JVal) : Option Errors :=
  let _sourceLocation := (dictGet error "sourceLocation").getD .jnull
  let _type := dictGet error "type"
  let _errorCode := dictGet error "errorCode"
  let _message := dictGet error "message"
  let _severity := dictGet error "severity"
  let sourceLocation : Option SourceLocation :=
    if _sourceLocation.truthy then
      match dictGet _sourceLocation "file", dictGet _sourceLocation "start",
          dictGet _sourceLocation "end" with
      | some f, some s, some e => some ⟨f, s, e⟩
      | _, _, _ => none
    else none
  let error_type : Option ErrorType :=
    match _type with
    | some t =>
      if (asString t).toLower = "warning" then some .WARNING
      else if (asString t).toLower = "error" then some .ERROR
      else none
    | none => none
  let severity : Option Severity :=
    match _severity with
    | some t =>
      if (asString t).toLower = "warning" then some .WARNING
      else if (asString t).toLower = "error" then some .ERROR
      else none
    | none => none
  match sourceLocation, error_type, severity with
  | some sl, some et, some sev =>
    if optTruthy _errorCode && optTruthy _message then
      some ⟨sl, et, _errorCode.getD .jnull, sev, _message.getD .jnull⟩
    else none
  | _, _, _ => none

/-- One iteration of the loader's `for info in _build_infos` loop: kept
iff `id`, `source_id_to_path` and `language` are all truthy. -/
def loadBuildInfo (info : JVal) : Option BuildInfo :=
  let _id := (dictGet info "id").getD .jnull
  let _source_map := (dictGet info "source_id_to_path").getD .jnull
  let _language := (dictGet info "language").getD .jnull
  if _id.truthy && _source_map.truthy && _language.truthy then
    some ⟨_id, asObj _source_map, _language⟩
  else none

/-- The `sources` part of `Root._initialize`: for each filename, the
list of values actually appended to its `source` list. -/
def init_sources (data : JVal) : List (String × List (Option File)) :=
  let _sources := (dictGet data "sources").getD .jnull
  if _sources.truthy then
    (asObj _sources).map (fun p => (p.1, (asArr p.2).filterMap loadFileRecord))
  else []

/-- The `errors` part of `Root._initialize`. -/
def init_errors (data : JVal) : List Errors :=
  let _errors := (dictGet data "errors").getD .jnull
  if _errors.truthy then (asArr _errors).filterMap loadError else []

/-- The `build_infos` part of `Root._initialize`. -/
def init_build_infos (data : JVal) : List BuildInfo :=
  let _build_infos := (dictGet data "build_infos").getD .jnull
  if _build_infos.truthy then (asArr _build_infos).filterMap loadBuildInfo else []

/-! ### `Root._build_position_index` and the `Root` aggregate -/

/-- The `id` passed to `_index_ast_nodes` as `file_id`.  It passed the
`isinstance(id, int)` check, so it is an int (or a bool, which Python
treats as 0/1); the parameter is threaded through the recursion but
never used in any emitted entry. -/
def asIntPy : JVal → Int
  | .jint n => n
  | .jbool b => if b then 1 else 0
  | _ => 0

/-- The file-id-to-path table built from `build_infos`: each
`source_id_to_path` key is parsed with `int(...)` (a `ValueError` skips
the entry); values are paths (strings in every well-formed artifact). -/
def buildFileIdMap (build_infos : List BuildInfo) : List (Int × String) :=
  build_infos.foldl
    (fun m bi =>
      bi.source_id_to_path.foldl
        (fun m p =>
          match pyInt p.1.data with
          | some fid => aset m fid (asString p.2)
          | none => m)
        m)
    []

/-- `Root._build_position_index`: fill `file_id_to_path`, index every
parsed source file's AST from depth 0, then `finalize_index`.
A `File` whose `source_file` is still the raw dict makes Python raise
`AttributeError` at `file.source_file.ast`; that crash is totalised as a
skip (no claim depends on it). -/
def build_position_index (sources : List (String × List (Option File)))
    (build_infos : List BuildInfo) : PositionIndex :=
  let idx0 : PositionIndex := ⟨[], [], buildFileIdMap build_infos⟩
  let idx1 := sources.foldl
    (fun idx p =>
      p.2.foldl
        (fun idx file =>
          match file with
          | some f =>
            match f.source_file with
            | .parsed sf => index_ast_nodes sf.ast (asIntPy sf.id) 0 idx
            | .raw _ => idx
          | none => idx)
        idx)
    idx0
  idx1.finalize_index

/-- Dataclass `Root` after `__post_init__` (`_initialize` then
`_build_position_index`). -/
structure Root where
  sources : List (String × List (Option File))
  errors : List Errors
  build_infos : List BuildInfo
  position_index : PositionIndex

/-- Construct a `Root` from a parsed artifact (what `__post_init__` does
with the JSON read from `file_path`). -/
def init_root (data : JVal) : Root :=
  let sources := init_sources data
  let errors := init_errors data
  let build_infos := init_build_infos data
  ⟨sources, errors, build_infos, build_position_index sources build_infos⟩

/-! ### The resolver (`find_node_at_position`, `get_declaration_location`)

Query-time file reads are modelled by an explicit file-system
environment.  `open(...)` + `read()` either raises `FileNotFoundError`
(the file is absent), raises some other I/O error (permissions, a
directory, undecodable bytes, ...), or yields the file's text. -/

/-- Outcome of reading one path. -/
inductive ReadResult where
  | notFound
  | ioErr
  | content (text : List Char)
  deriving DecidableEq

/-- A file system: paths not listed do not exist. -/
def FS : Type := List (String × ReadResult)

/-- Read a path from the file-system environment. -/
def readFs (fs : FS) (path : String) : ReadResult :=
  (alookup fs path).getD .notFound

instance {e a : Type} [DecidableEq e] [DecidableEq a] : DecidableEq (Except e a) :=
  fun x y =>
  match x, y with
  | .ok v, .ok w =>
    if h : v = w then .isTrue (by rw [h]) else .isFalse (fun hh => h (by injection hh))
  | .error v, .error w =>
    if h : v = w then .isTrue (by rw [h]) else .isFalse (fun hh => h (by injection hh))
  | .ok _, .error _ => .isFalse (fun hh => Except.noConfusion hh)
  | .error _, .ok _ => .isFalse (fun hh => Except.noConfusion hh)

/-- `text.replace(pat, "")` with explicit fuel (one unit per character,
so `fuel = text.length` always suffices): remove non-overlapping
occurrences of `pat` left to right. -/
def removeAllFuel (pat : List Char) : Nat → List Char → List Char
  | 0, l => l
  | _ + 1, [] => []
  | fuel + 1, c :: rest =>
    if pat ≠ [] ∧ pat.isPrefixOf (c :: rest) then
      removeAllFuel pat fuel (List.drop pat.length (c :: rest))
    else c :: removeAllFuel pat fuel rest

/-- Python `text.replace(pat, "")`. -/
def removeAll (pat l : List Char) : List Char := removeAllFuel pat l.length l

/-- The uri-matching loop of `find_node_at_position`: the first table
entry whose path is a suffix of the uri (`file_uri.endswith(path)`), or
whose path has the scheme-stripped uri as a suffix
(`path.endswith(file_uri.replace("file://", ""))`). -/
def uriFirstMatch (table : List (Int × String)) (file_uri : String) : Option Int :=
  match table with
  | [] => none
  | (fid, path) :: rest =>
    if path.data.isSuffixOf file_uri.data ||
        (removeAll "file://".data file_uri.data).isSuffixOf path.data then
      some fid
    else uriFirstMatch rest file_uri

/-- `Root.find_node_at_position(file_uri, line, character)`: resolve the
uri to a file id, re-read the file, convert the position to a byte
offset, and return the innermost containing node.  The `try` block
catches exactly `FileNotFoundError` and `KeyError` (folded to `None`);
any other I/O failure propagates (`Except.error`). -/
def Root.find_node_at_position (root : Root) (fs : FS) (file_uri : String)
    (line character : Nat) : Except Unit (Option AstNodeIndex) :=
  match uriFirstMatch root.position_index.file_id_to_path file_uri with
  | none => .ok none
  | some file_id =>
    match alookup root.position_index.file_id_to_path file_id with
    | none => .ok none
    | some file_path =>
      match readFs fs file_path with
      | .notFound => .ok none
      | .ioErr => .error ()
      | .content text =>
        .ok (root.position_index.find_innermost_node file_id
          ((lsp_position_to_byte_offset text line character : Nat) : Int))

/-- `Root._node_to_location(node)`: `None` when the node's file id has no
path; otherwise re-read the file and convert `start_byte` to an LSP
position, as `("file://" + path, line, character)`.  Only
`FileNotFoundError` is caught; other I/O failures propagate.
(`start_byte` is passed through `Int.toNat`: entry offsets are
non-negative in every artifact a claim concerns.) -/
def Root.node_to_location (root : Root) (fs : FS) (node : AstNodeIndex) :
    Except Unit (Option (String × Nat × Nat)) :=
  match alookup root.position_index.file_id_to_path node.file_id with
  | none => .ok none
  | some file_path =>
    match readFs fs file_path with
    | .notFound => .ok none
    | .ioErr => .error ()
    | .content text =>
      let lc := byte_offset_to_lsp_position text node.start_byte.toNat
      .ok (some ("file://" ++ file_path, lc.1, lc.2))

/-- Leading digit run of a character list (`\d+` at the match point). -/
def digitsPrefix : List Char → List Char
  | [] => []
  | c :: rest => if c.isDigit then c :: digitsPrefix rest else []

/-- `re.search(r"\$(\d+)", s)` followed by `int(match.group(1))`: the
integer after the first `$` that is immediately followed by at least one
digit, `none` when no such marker exists. -/
def firstDollarInt : List Char → Option Int
  | [] => none
  | c :: rest =>
    if c = '$' then
      match digitsPrefix rest with
      | [] => firstDollarInt rest
      | ds => some ((digitsToNat ds : Nat) : Int)
    else firstDollarInt rest

/-- `Root.get_declaration_location(node)`: stage (a) — a truthy
`referencedDeclaration` that is a key of `node_by_id` resolves to that
entry's location; otherwise stage (b) — the first `$<digits>` integer of
`typeDescriptions.typeIdentifier` (defaults `{}` and `""`), if a key of
`node_by_id`, resolves to that entry's location; otherwise `None`. -/
def Root.get_declaration_location (root : Root) (fs : FS) (node : AstNodeIndex) :
    Except Unit (Option (String × Nat × Nat)) :=
  let referenced_id := dictGet node.node_data "referencedDeclaration"
  let stage_a : Option AstNodeIndex :=
    match referenced_id with
    | some rid =>
      if rid.truthy then alookup root.position_index.node_by_id rid else none
    | none => none
  match stage_a with
  | some target_node => root.node_to_location fs target_node
  | none =>
    let type_desc := (dictGet node.node_data "typeDescriptions").getD (.jobj [])
    let type_id := (dictGet type_desc "typeIdentifier").getD (.jstr "")
    match firstDollarInt (asString type_id).data with
    | some target_id =>
      match alookup root.position_index.node_by_id (.jint target_id) with
      | some target_node => root.node_to_location fs target_node
      | none => .ok none
    | none => .ok none

/-! ### Concrete artifacts exercised by the claims -/

/-- Example entry A of spec §8: range 0–100, depth 0. -/
def entryA : AstNodeIndex :=
  ⟨.jint 1, 0, 0, 100, .jstr "ContractDefinition", .jnull, 0⟩

/-- Example entry B of spec §8: range 10–20, depth 1. -/
def entryB : AstNodeIndex :=
  ⟨.jint 2, 0, 10, 20, .jstr "VariableDeclaration", .jnull, 1⟩

/-- An index holding A and B in one file. -/
def exampleIndex : PositionIndex :=
  ((emptyIndex.add_node entryA).add_node entryB).finalize_index

/-- Two entries sharing node id 5 in file 0, ranges [0,10) and [2,8). -/
def dupN1 : AstNodeIndex := ⟨.jint 5, 0, 0, 10, .jstr "A", .jnull, 0⟩

/-- See `dupN1`. -/
def dupN2 : AstNodeIndex := ⟨.jint 5, 0, 2, 8, .jstr "B", .jnull, 1⟩

/-- A registered declaration entry with id 42 at offset 0 of file 0. -/
def declNode42 : AstNodeIndex :=
  ⟨.jint 42, 0, 0, 5, .jstr "VariableDeclaration", .jobj [("id", .jint 42)], 0⟩

/-- A registered declaration entry with id 77. -/
def declNode77 : AstNodeIndex :=
  ⟨.jint 77, 0, 0, 5, .jstr "StructDefinition", .jobj [("id", .jint 77)], 0⟩

/-- A registered declaration entry with id 0. -/
def declNode0 : AstNodeIndex :=
  ⟨.jint 0, 0, 0, 5, .jstr "VariableDeclaration", .jobj [("id", .jint 0)], 0⟩

/-- A root whose id map registers ids 42, 77 and 0, with file 0 at path
`/a.sol`. -/
def rootC3 : Root :=
  ⟨[], [], [],
    ⟨[], [(.jint 42, declNode42), (.jint 77, declNode77), (.jint 0, declNode0)],
      [(0, "/a.sol")]⟩⟩

/-- A file system where `/a.sol` exists and is empty. -/
def fsC3 : FS := [("/a.sol", .content [])]

/-- A query node carrying `referencedDeclaration = 42`. -/
def qRef42 : AstNodeIndex :=
  ⟨.jint 900, 0, 0, 1, .jstr "Identifier",
    .jobj [("referencedDeclaration", .jint 42)], 2⟩

/-- A query node lacking `referencedDeclaration`, with type descriptor
`"t_struct$_Foo_$77_storage"`. -/
def qType77 : AstNodeIndex :=
  ⟨.jint 901, 0, 0, 1, .jstr "Identifier",
    .jobj [("typeDescriptions",
      .jobj [("typeIdentifier", .jstr "t_struct$_Foo_$77_storage")])], 2⟩

/-- A query node with neither resolution field. -/
def qNeither : AstNodeIndex := ⟨.jint 902, 0, 0, 1, .jstr "Identifier", .jobj [], 2⟩

/-- A query node carrying `referencedDeclaration = 0` (a falsy value for
Python's `if referenced_id and ...` test). -/
def qRef0 : AstNodeIndex :=
  ⟨.jint 903, 0, 0, 1, .jstr "Identifier",
    .jobj [("referencedDeclaration", .jint 0)], 2⟩

/-- A root mapping file 0 to path `/x.sol`. -/
def rootC5 : Root := ⟨[], [], [], ⟨[], [], [(0, "/x.sol")]⟩⟩

/-- A file system where `/x.sol` exists but reading it fails with an
I/O error other than `FileNotFoundError` (e.g. `PermissionError`). -/
def fsC5 : FS := [("/x.sol", .ioErr)]

/-- A `source_file` value whose `id` is not an int (so the
`isinstance(id, int) and ast` shape check fails). -/
def sfRawC4 : JVal :=
  .jobj [("id", .jstr "notanint"), ("ast", .jobj [("nodeType", .jstr "SourceUnit")])]

/-- A source record with full metadata but the malformed `source_file`
above. -/
def recRawC4 : JVal :=
  .jobj [("version", .jstr "1"), ("build_id", .jstr "b"), ("profile", .jstr "p"),
    ("source_file", sfRawC4)]

/-- An artifact containing exactly the malformed record. -/
def dataC4 : JVal := .jobj [("sources", .jobj [("a.sol", .jarr [recRawC4])])]

/-- A well-formed child AST node (id 2, src `5:3:0`). -/
def childNode : JVal :=
  .jobj [("id", .jint 2), ("src", .jstr "5:3:0"),
    ("nodeType", .jstr "ContractDefinition")]

/-- A parent AST node with a malformed `src`, holding `childNode` under
the list-child key `nodes`. -/
def parentNode : JVal :=
  .jobj [("id", .jint 1), ("src", .jstr "bad"), ("nodes", .jarr [childNode])]

/-- A minimal indexable node with no `nodeType` (typeTag defaults to
`"Unknown"`). -/
def plainNode : JVal := .jobj [("id", .jint 7), ("src", .jstr "9212:3:6")]

/-! ## Verification

### Position-codec lemmas -/

theorem utf8Size_pos (c : Char) : 1 ≤ utf8Size c := by
  unfold utf8Size
  split
  · omega
  · split
    · omega
    · split <;> omega

theorem utf16Units_pos (c : Char) : 1 ≤ utf16Units c := by
  unfold utf16Units
  split <;> omega

theorem splitSep_ne_nil (sep : Char) (l : List Char) : splitSep sep l ≠ [] := by
  cases l with
  | nil => simp [splitSep]
  | cons c rest =>
    simp only [splitSep]
    cases h : splitSep sep rest with
    | nil => simp
    | cons a as =>
      dsimp only
      split <;> simp

theorem preBytes_zero (lines : List (List Char)) : preBytes lines 0 = 0 := by
  cases lines <;> rfl

theorem joinBytes_splitSep : ∀ content : List Char,
    joinBytes (splitSep '\n' content) = utf8Len content
  | [] => rfl
  | c :: rest => by
    have ih := joinBytes_splitSep rest
    simp only [splitSep]
    cases h : splitSep '\n' rest with
    | nil => exact absurd h (splitSep_ne_nil '\n' rest)
    | cons l ls =>
      rw [h] at ih
      dsimp only
      by_cases hc : c = '\n'
      · subst hc
        rw [if_pos rfl]
        have h1 : utf8Size '\n' = 1 := by decide
        simp only [joinBytes, utf8Len] at ih ⊢
        omega
      · rw [if_neg hc]
        cases ls with
        | nil =>
          simp only [joinBytes, utf8Len] at ih ⊢
          omega
        | cons l' ls' =>
          simp only [joinBytes, utf8Len] at ih ⊢
          omega

theorem isBoundary_le : ∀ (l : List Char) (b : Nat), isBoundary l b = true →
    b ≤ utf8Len l
  | _, 0, _ => Nat.zero_le _
  | [], _ + 1, h => by simp [isBoundary] at h
  | c :: rest, b + 1, h => by
    simp only [isBoundary] at h
    split at h
    · have := isBoundary_le rest (b + 1 - utf8Size c) h
      simp only [utf8Len]
      omega
    · exact absurd h (by simp)

theorem isBoundary_exists_take : ∀ (l : List Char) (b : Nat),
    isBoundary l b = true → ∃ k, k ≤ l.length ∧ b = utf8Len (l.take k)
  | _, 0, _ => ⟨0, Nat.zero_le _, rfl⟩
  | [], _ + 1, h => by simp [isBoundary] at h
  | c :: rest, b + 1, h => by
    simp only [isBoundary] at h
    split at h
    case isTrue hle =>
      obtain ⟨k, hk, hck⟩ := isBoundary_exists_take rest (b + 1 - utf8Size c) h
      refine ⟨k + 1, by simpa using Nat.succ_le_succ hk, ?_⟩
      simp only [List.take_succ_cons, utf8Len]
      omega
    case isFalse => exact absurd h (by simp)

theorem isBoundary_cons (ch : Char) (l : List Char) (c : Nat)
    (h : isBoundary l c = true) :
    isBoundary (ch :: l) (utf8Size ch + c) = true := by
  have hsz := utf8Size_pos ch
  obtain ⟨m, hm⟩ : ∃ m, utf8Size ch + c = m + 1 := ⟨utf8Size ch + c - 1, by omega⟩
  rw [hm]
  simp only [isBoundary]
  rw [if_pos (by omega)]
  have hmc : m + 1 - utf8Size ch = c := by omega
  rw [hmc]
  exact h

theorem boundary_decomp : ∀ (content : List Char) (b : Nat),
    isBoundary content b = true →
    ∃ i c, i < (splitSep '\n' content).length ∧
      b = preBytes (splitSep '\n' content) i + c ∧
      c ≤ utf8Len ((splitSep '\n' content).getD i []) ∧
      isBoundary ((splitSep '\n' content).getD i []) c = true
  | content, 0, _ => by
    refine ⟨0, 0, List.length_pos.mpr (splitSep_ne_nil '\n' content),
      by rw [preBytes_zero], Nat.zero_le _, ?_⟩
    cases h : (splitSep '\n' content).getD 0 [] <;> simp [isBoundary]
  | [], b + 1, h => by simp [isBoundary] at h
  | ch :: rest, b + 1, h => by
    simp only [isBoundary] at h
    split at h
    case isFalse => exact absurd h (by simp)
    case isTrue hle =>
      obtain ⟨i, c, hi, hbc, hcle, hcb⟩ := boundary_decomp rest (b + 1 - utf8Size ch) h
      cases hsp : splitSep '\n' rest with
      | nil => exact absurd hsp (splitSep_ne_nil '\n' rest)
      | cons l ls =>
        rw [hsp] at hi hbc hcle hcb
        simp only [splitSep, hsp]
        by_cases hch : ch = '\n'
        · subst hch
          rw [if_pos rfl]
          refine ⟨i + 1, c, by simpa using hi, ?_, by simpa using hcle,
            by simpa using hcb⟩
          have h1 : utf8Size '\n' = 1 := by decide
          simp only [preBytes, utf8Len]
          omega
        · rw [if_neg hch]
          cases i with
          | zero =>
            simp only [List.getD_cons_zero, preBytes] at hbc hcle hcb
            refine ⟨0, utf8Size ch + c, by simp, ?_, ?_, ?_⟩
            · simp only [preBytes]
              omega
            · simp only [List.getD_cons_zero, utf8Len]
              omega
            · simp only [List.getD_cons_zero]
              exact isBoundary_cons ch l c hcb
          | succ j =>
            simp only [List.getD_cons_succ, preBytes] at hbc hcle hcb
            refine ⟨j + 1, c, by simpa using hi, ?_, by simpa using hcle,
              by simpa using hcb⟩
            simp only [preBytes, utf8Len]
            omega

theorem utf16OfBytePrefix_take : ∀ (l : List Char) (k : Nat), k ≤ l.length →
    utf16OfBytePrefix l (utf8Len (l.take k)) = utf16Len (l.take k)
  | [], _, _ => by simp [utf16OfBytePrefix, utf8Len, utf16Len]
  | ch :: rest, 0, _ => by
    simp only [List.take_zero, utf8Len, utf16Len, utf16OfBytePrefix]
    rw [if_neg (by have := utf8Size_pos ch; omega)]
  | ch :: rest, k + 1, hk => by
    simp only [List.take_succ_cons, utf8Len, utf16Len, utf16OfBytePrefix]
    rw [if_pos (by omega)]
    have ih := utf16OfBytePrefix_take rest k (by simpa using hk)
    have harg : utf8Size ch + utf8Len (rest.take k) - utf8Size ch =
        utf8Len (rest.take k) := by omega
    rw [harg, ih]

theorem scanToCol_take_aux : ∀ (l : List Char) (k u byt : Nat), k ≤ l.length →
    scanToCol l (u + utf16Len (l.take k)) u byt = byt + utf8Len (l.take k)
  | l, 0, u, byt, _ => by
    cases l with
    | nil => simp [scanToCol, utf16Len, utf8Len]
    | cons ch rest =>
      simp only [List.take_zero, utf16Len, utf8Len, scanToCol]
      rw [if_pos (by omega)]
      omega
  | [], k + 1, u, byt, hk => by simp at hk
  | ch :: rest, k + 1, u, byt, hk => by
    simp only [List.take_succ_cons, utf16Len, utf8Len, scanToCol]
    rw [if_neg (by have := utf16Units_pos ch; omega)]
    have ih := scanToCol_take_aux rest k (u + utf16Units ch) (byt + utf8Size ch)
      (by simpa using hk)
    have harg : u + (utf16Units ch + utf16Len (rest.take k)) =
        u + utf16Units ch + utf16Len (rest.take k) := by omega
    rw [harg, ih]
    omega

theorem scanToCol_full : ∀ (l : List Char) (tgt u byt : Nat),
    u + utf16Len l ≤ tgt → scanToCol l tgt u byt = byt + utf8Len l
  | [], _, _, byt, _ => by simp [scanToCol, utf8Len]
  | ch :: rest, tgt, u, byt, h => by
    simp only [utf16Len] at h
    simp only [scanToCol]
    rw [if_neg (by have := utf16Units_pos ch; omega)]
    have ih := scanToCol_full rest tgt (u + utf16Units ch) (byt + utf8Size ch)
      (by omega)
    rw [ih]
    simp only [utf8Len]
    omega

theorem offLoop_spec : ∀ (lines : List (List Char)) (i c cur ln total : Nat),
    i < lines.length → c ≤ utf8Len (lines.getD i []) →
    offLoop lines (cur + preBytes lines i + c) cur ln total =
      (ln + i, utf16OfBytePrefix (lines.getD i []) c)
  | [], i, _, _, _, _, hi, _ => absurd hi (by simp)
  | l :: rest, 0, c, cur, ln, total, _, hc => by
    simp only [preBytes, List.getD_cons_zero] at hc ⊢
    simp only [offLoop]
    rw [if_pos (by omega)]
    have harg : cur + 0 + c - cur = c := by omega
    rw [harg]
    simp
  | l :: rest, i + 1, c, cur, ln, total, hi, hc => by
    simp only [preBytes, List.getD_cons_succ] at hc ⊢
    simp only [offLoop]
    rw [if_neg (by omega)]
    have ih := offLoop_spec rest i c (cur + utf8Len l + 1) (ln + 1) total
      (by simpa using hi) hc
    have harg : cur + (utf8Len l + 1 + preBytes rest i) + c =
        cur + utf8Len l + 1 + preBytes rest i + c := by omega
    rw [harg, ih]
    have hln : ln + 1 + i = ln + (i + 1) := by omega
    rw [hln]

theorem getLastD_eq_getD_last : ∀ (lines : List (List Char)), lines ≠ [] →
    lines.getLastD [] = lines.getD (lines.length - 1) []
  | [], h => absurd rfl h
  | [l], _ => by simp [List.getLastD_cons]
  | l :: l' :: ls, _ => by
    have ih := getLastD_eq_getD_last (l' :: ls) (by simp)
    rw [List.getLastD_cons] at ih
    rw [List.getLastD_cons, List.getLastD_cons]
    rw [ih]
    simp only [List.length_cons, Nat.add_sub_cancel, List.getD_cons_succ]

theorem preBytes_getD_last : ∀ (lines : List (List Char)), lines ≠ [] →
    preBytes lines (lines.length - 1) +
      utf8Len (lines.getD (lines.length - 1) []) = joinBytes lines
  | [], h => absurd rfl h
  | [l], _ => by simp [preBytes, joinBytes]
  | l :: l' :: ls, _ => by
    have ih := preBytes_getD_last (l' :: ls) (by simp)
    simp only [List.length_cons, Nat.add_sub_cancel] at ih ⊢
    simp only [preBytes, joinBytes, List.getD_cons_succ]
    omega

/-! ### Claims C1 and C8: the position codec -/

/-- C1: for every UTF-8 text buffer and every byte offset `b` landing
exactly on a UTF-8 character boundary of that buffer (multi-byte and
surrogate-pair characters included), converting `b` to a
(line, UTF-16 column) position with `byte_offset_to_lsp_position` and
converting that position back with `lsp_position_to_byte_offset` yields
`b` again. -/
theorem position_codec_roundtrip (content : List Char) (b : Nat)
    (h : isBoundary content b = true) :
    lsp_position_to_byte_offset content
      (byte_offset_to_lsp_position content b).1
      (byte_offset_to_lsp_position content b).2 = b := by
  have hne := splitSep_ne_nil '\n' content
  have hlen : 0 < (splitSep '\n' content).length := List.length_pos.mpr hne
  by_cases hend : utf8Len content ≤ b
  · have hble := isBoundary_le content b h
    have hb : b = utf8Len content := le_antisymm hble hend
    simp only [byte_offset_to_lsp_position, if_pos hend]
    simp only [lsp_position_to_byte_offset]
    rw [if_neg (by omega)]
    rw [getLastD_eq_getD_last _ hne]
    rw [scanToCol_full _ _ _ _ (by omega)]
    rw [Nat.zero_add]
    rw [preBytes_getD_last _ hne, joinBytes_splitSep]
    omega
  · obtain ⟨i, c, hi, hbc, hcle, hcb⟩ := boundary_decomp content b h
    obtain ⟨k, hk, hck⟩ := isBoundary_exists_take _ _ hcb
    simp only [byte_offset_to_lsp_position]
    rw [if_neg hend]
    have hol := offLoop_spec (splitSep '\n' content) i c 0 0
      (splitSep '\n' content).length hi hcle
    rw [show b = 0 + preBytes (splitSep '\n' content) i + c by omega]
    rw [hol]
    dsimp only
    simp only [Nat.zero_add]
    simp only [lsp_position_to_byte_offset]
    rw [if_neg (by omega)]
    rw [hck]
    rw [utf16OfBytePrefix_take _ _ hk]
    have hst := scanToCol_take_aux ((splitSep '\n' content).getD i []) k 0 0 hk
    rw [Nat.zero_add, Nat.zero_add] at hst
    rw [hst]

/-- C1 witness: the round trip at the concrete buffer `"a\nðb"`
(`ð` the astral smiley U+1F642) and boundary byte offset 6, which sits
after the 4-byte emoji on line 1. -/
theorem position_codec_roundtrip_witness :
    isBoundary ['a', '\n', Char.ofNat 0x1F642, 'b'] 6 = true ∧
    lsp_position_to_byte_offset ['a', '\n', Char.ofNat 0x1F642, 'b']
      (byte_offset_to_lsp_position ['a', '\n', Char.ofNat 0x1F642, 'b'] 6).1
      (byte_offset_to_lsp_position ['a', '\n', Char.ofNat 0x1F642, 'b'] 6).2 = 6 :=
  ⟨by decide, position_codec_roundtrip ['a', '\n', Char.ofNat 0x1F642, 'b'] 6 (by decide)⟩

/-- C8: for every buffer, every line index inside the buffer and every
requested UTF-16 column at or past the line's total UTF-16 length,
`lsp_position_to_byte_offset` returns the line's starting byte offset
plus the line's full UTF-8 byte length (the column saturates at the end
of the line). -/
theorem lsp_position_saturates_at_line_end (content : List Char)
    (line col : Nat)
    (hline : line < (splitSep '\n' content).length)
    (hcol : utf16Len ((splitSep '\n' content).getD line []) ≤ col) :
    lsp_position_to_byte_offset content line col =
      preBytes (splitSep '\n' content) line +
        utf8Len ((splitSep '\n' content).getD line []) := by
  simp only [lsp_position_to_byte_offset]
  rw [if_neg (by omega)]
  rw [scanToCol_full _ _ _ _ (by omega)]
  omega

/-- C8 witness: the saturation at buffer `"a\nbc"`, line 1, requested
column 99: the result is the line start (2) plus the line's 2 bytes. -/
theorem lsp_position_saturates_at_line_end_witness :
    1 < (splitSep '\n' "a\nbc".data).length ∧
    utf16Len ((splitSep '\n' "a\nbc".data).getD 1 []) ≤ 99 ∧
    lsp_position_to_byte_offset "a\nbc".data 1 99 =
      preBytes (splitSep '\n' "a\nbc".data) 1 +
        utf8Len ((splitSep '\n' "a\nbc".data).getD 1 []) :=
  ⟨by decide, by decide,
    lsp_position_saturates_at_line_end "a\nbc".data 1 99 (by decide) (by decide)⟩

/-! ### Index lemmas -/

theorem find_nodes_eq (idx : PositionIndex) (fid off : Int) :
    idx.find_nodes_at_position fid off =
      List.insertionSort depthRel (((alookup idx.file_nodes fid).getD []).filter
        (fun node => decide (node.start_byte ≤ off ∧ off < node.end_byte))) := by
  unfold PositionIndex.find_nodes_at_position
  cases alookup idx.file_nodes fid with
  | none => simp [List.insertionSort]
  | some nodes => simp

theorem mem_find_nodes_iff (idx : PositionIndex) (fid off : Int)
    (n : AstNodeIndex) :
    n ∈ idx.find_nodes_at_position fid off ↔
      (n ∈ (alookup idx.file_nodes fid).getD [] ∧
        n.start_byte ≤ off ∧ off < n.end_byte) := by
  rw [find_nodes_eq]
  rw [(List.perm_insertionSort depthRel _).mem_iff]
  simp [List.mem_filter]

theorem alookup_map_snd {β γ : Type} (f : β → γ) :
    ∀ (m : List (Int × β)) (k : Int),
      alookup (m.map (fun p => (p.1, f p.2))) k = (alookup m k).map f
  | [], _ => rfl
  | (k', v) :: rest, k => by
    simp only [List.map_cons, alookup]
    by_cases hk : k' = k
    · rw [if_pos hk, if_pos hk]
      rfl
    · rw [if_neg hk, if_neg hk]
      exact alookup_map_snd f rest k

theorem alookup_bucketAppend :
    ∀ (m : List (Int × List AstNodeIndex)) (fid : Int) (n : AstNodeIndex),
      alookup (bucketAppend m fid n) fid = some ((alookup m fid).getD [] ++ [n])
  | [], fid, n => by simp [bucketAppend, alookup]
  | (k, l) :: rest, fid, n => by
    simp only [bucketAppend]
    by_cases hk : k = fid
    · rw [if_pos hk]
      simp [alookup, hk]
    · rw [if_neg hk]
      simp [alookup, hk, alookup_bucketAppend rest fid n]

theorem alookup_aset {α β : Type} [DecidableEq α] :
    ∀ (m : List (α × β)) (k : α) (v : β), alookup (aset m k v) k = some v
  | [], k, v => by simp [aset, alookup]
  | (k', v') :: rest, k, v => by
    simp only [aset]
    by_cases hk : k' = k
    · rw [if_pos hk]
      simp [alookup]
    · rw [if_neg hk]
      simp [alookup, hk, alookup_aset rest k v]

/-! ### Claims C2, C6, C9: the spatial index -/

/-- C2: `find_nodes_at_position` returns exactly the indexed entries of
the queried file whose half-open range `[start_byte, end_byte)` contains
the offset (a permutation of the containment filter of the file's
bucket), ordered deepest-first; `find_innermost_node` is its first
element or none; and on an index holding A(0–100, depth 0) and
B(10–20, depth 1) in one file the innermost node at offset 15 is B, at
50 is A, and at 150 is none. -/
theorem find_nodes_at_position_spec :
    (∀ (idx : PositionIndex) (fid off : Int),
      List.Perm (idx.find_nodes_at_position fid off)
        (((alookup idx.file_nodes fid).getD []).filter
          (fun node => decide (node.start_byte ≤ off ∧ off < node.end_byte)))) ∧
    (∀ (idx : PositionIndex) (fid off : Int),
      List.Pairwise (fun a b => b.depth ≤ a.depth)
        (idx.find_nodes_at_position fid off)) ∧
    (∀ (idx : PositionIndex) (fid off : Int),
      idx.find_innermost_node fid off =
        (idx.find_nodes_at_position fid off).head?) ∧
    exampleIndex.find_innermost_node 0 15 = some entryB ∧
    exampleIndex.find_innermost_node 0 50 = some entryA ∧
    exampleIndex.find_innermost_node 0 150 = none := by
  refine ⟨?_, ?_, ?_, by decide, by decide, by decide⟩
  · intro idx fid off
    rw [find_nodes_eq]
    exact List.perm_insertionSort depthRel _
  · intro idx fid off
    rw [find_nodes_eq]
    exact List.sorted_insertionSort depthRel _
  · intro idx fid off
    rfl

/-- C6: after `finalize_index`, every file's bucket is sorted with
`start_byte` non-decreasing and, among entries with equal `start_byte`,
`depth` non-increasing. -/
theorem finalize_index_sorted (idx : PositionIndex) (fid : Int) :
    List.Pairwise
      (fun a b => a.start_byte ≤ b.start_byte ∧
        (a.start_byte = b.start_byte → b.depth ≤ a.depth))
      ((alookup idx.finalize_index.file_nodes fid).getD []) := by
  unfold PositionIndex.finalize_index
  rw [alookup_map_snd]
  cases h : alookup idx.file_nodes fid with
  | none => simp
  | some bucket =>
    have hs : List.Pairwise finRel (List.insertionSort finRel bucket) :=
      List.sorted_insertionSort finRel bucket
    simp only [Option.map_some', Option.getD_some]
    refine hs.imp (fun hab => ?_)
    rcases hab with hlt | ⟨heq, hd⟩
    · exact ⟨le_of_lt hlt, fun he => by omega⟩
    · exact ⟨le_of_eq heq, fun _ => hd⟩

/-- C9: adding two entries with the same node id (and file) keeps both
in the per-file bucket — so both are returned by
`find_nodes_at_position` at an offset inside both ranges — while the
global `node_by_id` map keeps only the later entry. -/
theorem add_node_duplicate_id (idx : PositionIndex) (n1 n2 : AstNodeIndex)
    (_hid : n1.node_id = n2.node_id) (hfid : n1.file_id = n2.file_id) :
    (alookup ((idx.add_node n1).add_node n2).file_nodes n2.file_id).getD [] =
      (alookup idx.file_nodes n2.file_id).getD [] ++ [n1, n2] ∧
    alookup ((idx.add_node n1).add_node n2).node_by_id n2.node_id = some n2 ∧
    (∀ off : Int, n1.start_byte ≤ off → off < n1.end_byte →
      n2.start_byte ≤ off → off < n2.end_byte →
      n1 ∈ ((idx.add_node n1).add_node n2).find_nodes_at_position n2.file_id off ∧
      n2 ∈ ((idx.add_node n1).add_node n2).find_nodes_at_position n2.file_id off) := by
  have hbuck :
      (alookup ((idx.add_node n1).add_node n2).file_nodes n2.file_id).getD [] =
        (alookup idx.file_nodes n2.file_id).getD [] ++ [n1, n2] := by
    simp only [PositionIndex.add_node]
    rw [← hfid]
    rw [alookup_bucketAppend, alookup_bucketAppend]
    simp
  refine ⟨hbuck, ?_, ?_⟩
  · simp only [PositionIndex.add_node]
    rw [alookup_aset]
  · intro off h1 h2 h3 h4
    constructor
    · rw [mem_find_nodes_iff, hbuck]
      exact ⟨by simp, h1, h2⟩
    · rw [mem_find_nodes_iff, hbuck]
      exact ⟨by simp, h3, h4⟩

/-- C9 witness: entries `dupN1`, `dupN2` (both id 5, file 0) added to the
empty index: both sit in the bucket, both are found at offset 5, and the
id map holds `dupN2`. -/
theorem add_node_duplicate_id_witness :
    ((alookup ((emptyIndex.add_node dupN1).add_node dupN2).file_nodes
        dupN2.file_id).getD [] =
      (alookup emptyIndex.file_nodes dupN2.file_id).getD [] ++ [dupN1, dupN2]) ∧
    alookup ((emptyIndex.add_node dupN1).add_node dupN2).node_by_id
      dupN2.node_id = some dupN2 ∧
    dupN1 ∈ ((emptyIndex.add_node dupN1).add_node dupN2).find_nodes_at_position
      dupN2.file_id 5 ∧
    dupN2 ∈ ((emptyIndex.add_node dupN1).add_node dupN2).find_nodes_at_position
      dupN2.file_id 5 := by
  obtain ⟨h1, h2, h3⟩ :=
    add_node_duplicate_id emptyIndex dupN1 dupN2 (by decide) (by decide)
  obtain ⟨h4, h5⟩ := h3 5 (by decide) (by decide) (by decide) (by decide)
  exact ⟨h1, h2, h4, h5⟩

/-! ### Claim C7: `parse_src` -/

/-- C7: `parse_src "9212:3:6"` yields start 9212, length 3, file id 6
(and the entry the indexer builds from such a node has
`end_byte = 9215`, with typeTag defaulting to `"Unknown"`);
`parse_src "bad"` is none; and in general a src string parses only as
three colon-separated integers. -/
theorem parse_src_spec :
    parse_src "9212:3:6" = some (9212, 3, 6) ∧
    parse_src "bad" = none ∧
    (∀ (s : String) (a b c : Int), parse_src s = some (a, b, c) →
      ∃ p0 p1 p2, splitSep ':' s.data = [p0, p1, p2] ∧
        pyInt p0 = some a ∧ pyInt p1 = some b ∧ pyInt p2 = some c) ∧
    alookup (index_ast_nodes plainNode 0 0 emptyIndex).node_by_id (.jint 7) =
      some ⟨.jint 7, 6, 9212, 9215, .jstr "Unknown", plainNode, 0⟩ := by
  refine ⟨by decide, by decide, ?_, by decide⟩
  intro s a b c h
  unfold parse_src at h
  rcases hsp : splitSep ':' s.data with _ | ⟨p0, _ | ⟨p1, _ | ⟨p2, _ | ⟨p3, rest⟩⟩⟩⟩ <;>
    rw [hsp] at h <;> simp only [List.length_nil, List.length_cons] at h
  · simp at h
  · simp at h
  · simp at h
  · rcases hp0 : pyInt p0 with _ | a' <;> rw [hp0] at h
    · simp at h
    · rcases hp1 : pyInt p1 with _ | b' <;> rw [hp1] at h
      · simp at h
      · rcases hp2 : pyInt p2 with _ | c' <;> rw [hp2] at h
        · simp at h
        · simp only [if_neg (by omega : ¬(3 : Nat) ≠ 3)] at h
          simp only [Option.some.injEq, Prod.mk.injEq] at h
          obtain ⟨ha, hb, hc⟩ := h
          subst ha
          subst hb
          subst hc
          exact ⟨p0, p1, p2, rfl, hp0, hp1, hp2⟩
  · simp at h

/-- C7 witness: the decomposition direction applied at the concrete
src string `"9212:3:6"`. -/
theorem parse_src_spec_witness :
    parse_src "9212:3:6" = some (9212, 3, 6) ∧
    (∃ p0 p1 p2, splitSep ':' "9212:3:6".data = [p0, p1, p2] ∧
      pyInt p0 = some 9212 ∧ pyInt p1 = some 3 ∧ pyInt p2 = some 6) :=
  ⟨by decide, parse_src_spec.2.2.1 "9212:3:6" 9212 3 6 (by decide)⟩

/-! ### Claim C10: unindexable nodes still recurse into children -/

/-- C10: a visited node lacking `id`, lacking `src`, or whose `src`
fails `parse_src`, contributes no entry itself — `index_ast_nodes` on it
is exactly the child traversal from the unchanged index — and its
indexable descendants are still indexed at their correct depth (child of
a malformed-src parent lands at depth 1; the parent is absent). -/
theorem unindexable_node_children_still_indexed :
    (∀ (fields : List (String × JVal)) (fid : Int) (depth : Nat)
      (idx : PositionIndex), hasKey fields "src" = false →
      index_ast_nodes (.jobj fields) fid depth idx =
        indexChildren fields fid depth idx) ∧
    (∀ (fields : List (String × JVal)) (fid : Int) (depth : Nat)
      (idx : PositionIndex), hasKey fields "id" = false →
      index_ast_nodes (.jobj fields) fid depth idx =
        indexChildren fields fid depth idx) ∧
    (∀ (fields : List (String × JVal)) (fid : Int) (depth : Nat)
      (idx : PositionIndex) (s : String),
      alookup fields "src" = some (.jstr s) → parse_src s = none →
      index_ast_nodes (.jobj fields) fid depth idx =
        indexChildren fields fid depth idx) ∧
    alookup (index_ast_nodes parentNode 0 0 emptyIndex).node_by_id (.jint 2) =
      some ⟨.jint 2, 0, 5, 8, .jstr "ContractDefinition", childNode, 1⟩ ∧
    alookup (index_ast_nodes parentNode 0 0 emptyIndex).node_by_id (.jint 1) =
      none := by
  refine ⟨?_, ?_, ?_, by decide, by decide⟩
  · intro fields fid depth idx h
    simp only [index_ast_nodes, indexSelf, h, Bool.false_and, Bool.false_eq_true,
      if_false]
  · intro fields fid depth idx h
    simp only [index_ast_nodes, indexSelf, h, Bool.and_false, Bool.false_eq_true,
      if_false]
  · intro fields fid depth idx s hsrc hps
    have hsome : hasKey fields "src" = true := by simp [hasKey, hsrc]
    by_cases hid : hasKey fields "id"
    · simp only [index_ast_nodes, indexSelf, hsome, hid, Bool.and_self, if_true,
        hsrc, Option.getD_some, hps]
    · simp only [Bool.not_eq_true] at hid
      simp only [index_ast_nodes, indexSelf, hid, Bool.and_false,
        Bool.false_eq_true, if_false]

/-- C10 witness: the skip-but-recurse equation applied to the concrete
fields of `parentNode`, whose `src` is `"bad"`. -/
theorem unindexable_node_children_still_indexed_witness :
    alookup [("id", JVal.jint 1), ("src", JVal.jstr "bad"),
        ("nodes", JVal.jarr [childNode])] "src" = some (.jstr "bad") ∧
    parse_src "bad" = none ∧
    index_ast_nodes (.jobj [("id", JVal.jint 1), ("src", JVal.jstr "bad"),
        ("nodes", JVal.jarr [childNode])]) 0 0 emptyIndex =
      indexChildren [("id", JVal.jint 1), ("src", JVal.jstr "bad"),
        ("nodes", JVal.jarr [childNode])] 0 0 emptyIndex :=
  ⟨by decide, by decide,
    unindexable_node_children_still_indexed.2.2.1
      [("id", JVal.jint 1), ("src", JVal.jstr "bad"),
        ("nodes", JVal.jarr [childNode])] 0 0 emptyIndex "bad"
      (by decide) (by decide)⟩

/-! ### Claim C3: declaration resolution -/

/-- C3 (amended): `get_declaration_location` is a two-stage strategy —
(a) a *truthy* (in particular nonzero) `referencedDeclaration` present
in the global id map resolves to that entry's location; (b) otherwise
the first `$<digits>` integer of the nested type-descriptor string, if
registered, resolves to that entry's location; with neither the result
is none.  Concretely: `referencedDeclaration = 42` with 42 registered
resolves to that entry; no such field plus descriptor
`"t_struct$_Foo_$77_storage"` with 77 registered resolves via 77;
neither gives none. -/
theorem get_declaration_location_two_stage :
    (∀ (root : Root) (fs : FS) (node : AstNodeIndex) (n : Int)
      (target : AstNodeIndex),
      dictGet node.node_data "referencedDeclaration" = some (.jint n) →
      n ≠ 0 →
      alookup root.position_index.node_by_id (.jint n) = some target →
      root.get_declaration_location fs node = root.node_to_location fs target) ∧
    (∀ (root : Root) (fs : FS) (node : AstNodeIndex) (td : JVal) (s : String)
      (m : Int) (target : AstNodeIndex),
      dictGet node.node_data "referencedDeclaration" = none →
      dictGet node.node_data "typeDescriptions" = some td →
      dictGet td "typeIdentifier" = some (.jstr s) →
      firstDollarInt s.data = some m →
      alookup root.position_index.node_by_id (.jint m) = some target →
      root.get_declaration_location fs node = root.node_to_location fs target) ∧
    (∀ (root : Root) (fs : FS) (node : AstNodeIndex),
      dictGet node.node_data "referencedDeclaration" = none →
      dictGet node.node_data "typeDescriptions" = none →
      root.get_declaration_location fs node = .ok none) ∧
    rootC3.get_declaration_location fsC3 qRef42 =
      rootC3.node_to_location fsC3 declNode42 ∧
    rootC3.get_declaration_location fsC3 qRef42 =
      .ok (some ("file:///a.sol", 0, 0)) ∧
    rootC3.get_declaration_location fsC3 qType77 =
      rootC3.node_to_location fsC3 declNode77 ∧
    rootC3.get_declaration_location fsC3 qNeither = .ok none := by
  refine ⟨?_, ?_, ?_, by decide, by decide, by decide, by decide⟩
  · intro root fs node n target h1 h2 h3
    simp only [Root.get_declaration_location, h1]
    rw [if_pos (show (JVal.jint n).truthy = true by simp [JVal.truthy, h2])]
    rw [h3]
  · intro root fs node td s m target h1 h2 h3 h4 h5
    simp only [Root.get_declaration_location, h1, h2, Option.getD_some, h3,
      asString, h4, h5]
  · intro root fs node h1 h2
    simp only [Root.get_declaration_location, h1, h2]
    rfl

/-- C3 witness: the three stages of the amended claim applied at
concrete inputs (ids 42 and 77 registered in `rootC3`). -/
theorem get_declaration_location_two_stage_witness :
    (rootC3.get_declaration_location fsC3 qRef42 =
      rootC3.node_to_location fsC3 declNode42) ∧
    (rootC3.get_declaration_location fsC3 qType77 =
      rootC3.node_to_location fsC3 declNode77) ∧
    rootC3.get_declaration_location fsC3 qNeither = .ok none :=
  ⟨get_declaration_location_two_stage.1 rootC3 fsC3 qRef42 42 declNode42
      (by decide) (by decide) (by decide),
    get_declaration_location_two_stage.2.1 rootC3 fsC3 qType77
      (.jobj [("typeIdentifier", .jstr "t_struct$_Foo_$77_storage")])
      "t_struct$_Foo_$77_storage" 77 declNode77
      (by decide) (by decide) (by decide) (by decide) (by decide),
    get_declaration_location_two_stage.2.2.1 rootC3 fsC3 qNeither
      (by decide) (by decide)⟩

/-- C3 counterexample to the claim as stated: a node whose payload
carries the integer `referencedDeclaration = 0`, with id 0 registered
and resolvable to a location — yet the result is none, because Python's
`if referenced_id and ...` treats 0 as falsy and skips stage (a). -/
theorem get_declaration_location_zero_ref_counterexample :
    dictGet qRef0.node_data "referencedDeclaration" = some (.jint 0) ∧
    alookup rootC3.position_index.node_by_id (.jint 0) = some declNode0 ∧
    rootC3.node_to_location fsC3 declNode0 = .ok (some ("file:///a.sol", 0, 0)) ∧
    rootC3.get_declaration_location fsC3 qRef0 = .ok none :=
  ⟨by decide, by decide, by decide, by decide⟩

/-! ### Claim C5: `find_node_at_position` miss behavior -/

/-- C5 (amended): `find_node_at_position` returns none when the uri
matches no fileId→path table entry, when the resolved file is missing
(`FileNotFoundError`), or when no indexed node contains the computed
offset; but only `FileNotFoundError` (and `KeyError`) are caught — any
other I/O failure while re-reading the file propagates instead of
folding into none. -/
theorem find_node_at_position_miss_behavior :
    (∀ (root : Root) (fs : FS) (uri : String) (line character : Nat),
      uriFirstMatch root.position_index.file_id_to_path uri = none →
      root.find_node_at_position fs uri line character = .ok none) ∧
    (∀ (root : Root) (fs : FS) (uri : String) (line character : Nat)
      (fid : Int) (path : String),
      uriFirstMatch root.position_index.file_id_to_path uri = some fid →
      alookup root.position_index.file_id_to_path fid = some path →
      readFs fs path = .notFound →
      root.find_node_at_position fs uri line character = .ok none) ∧
    (∀ (root : Root) (fs : FS) (uri : String) (line character : Nat)
      (fid : Int) (path : String) (text : List Char),
      uriFirstMatch root.position_index.file_id_to_path uri = some fid →
      alookup root.position_index.file_id_to_path fid = some path →
      readFs fs path = .content text →
      root.find_node_at_position fs uri line character =
        .ok (root.position_index.find_innermost_node fid
          ((lsp_position_to_byte_offset text line character : Nat) : Int))) := by
  refine ⟨?_, ?_, ?_⟩
  · intro root fs uri line character h1
    simp only [Root.find_node_at_position, h1]
  · intro root fs uri line character fid path h1 h2 h3
    simp only [Root.find_node_at_position, h1, h2, h3]
  · intro root fs uri line character fid path text h1 h2 h3
    simp only [Root.find_node_at_position, h1, h2, h3]

/-- C5 witness: the three miss cases at concrete inputs — an unmatched
uri over `rootC3`'s table, and the missing-file and innermost-node paths
over `rootC5`. -/
theorem find_node_at_position_miss_behavior_witness :
    rootC3.find_node_at_position [] "file:///other.txt" 0 0 = .ok none ∧
    rootC5.find_node_at_position [] "file:///x.sol" 0 0 = .ok none ∧
    rootC5.find_node_at_position [("/x.sol", .content [])] "file:///x.sol" 0 0 =
      .ok (rootC5.position_index.find_innermost_node 0
        ((lsp_position_to_byte_offset [] 0 0 : Nat) : Int)) :=
  ⟨find_node_at_position_miss_behavior.1 rootC3 [] "file:///other.txt" 0 0
      (by decide),
    find_node_at_position_miss_behavior.2.1 rootC5 [] "file:///x.sol" 0 0 0
      "/x.sol" (by decide) (by decide) (by decide),
    find_node_at_position_miss_behavior.2.2 rootC5 [("/x.sol", .content [])]
      "file:///x.sol" 0 0 0 "/x.sol" [] (by decide) (by decide) (by decide)⟩

/-- C5 counterexample to the claim as stated: an I/O failure that is not
`FileNotFoundError` while re-reading the resolved file is *not* caught —
the call propagates the exception (`Except.error`) rather than folding
it into none. -/
theorem find_node_at_position_io_error_counterexample :
    readFs fsC5 "/x.sol" = .ioErr ∧
    rootC5.find_node_at_position fsC5 "file:///x.sol" 0 0 = .error () :=
  ⟨by decide, by decide⟩

/-! ### Claim C4: the loader's drop policy -/

/-- C4 (code-bug evidence): a source record whose `source_file.id` fails
the `isinstance(id, int)` shape check but whose metadata is intact is
*not* dropped — `_initialize` appends a `File` whose `source_file` is
the raw unparsed dict (Python later crashes on `.ast` when indexing
it).  A record with a truthy `source_file` but missing metadata is not
cleanly dropped either: Python appends `None` to the collection. -/
theorem loader_includes_malformed_source_record :
    isPyInt ((dictGet sfRawC4 "id").getD .jnull) = false ∧
    init_sources dataC4 =
      [("a.sol", [some ⟨.raw sfRawC4, .jstr "1", .jstr "b", .jstr "p"⟩])] ∧
    init_sources (.jobj [("sources", .jobj [("a.sol", .jarr
        [.jobj [("build_id", .jstr "b"), ("profile", .jstr "p"),
          ("source_file", .jobj [("id", .jint 3),
            ("ast", .jobj [("nodeType", .jstr "SourceUnit")])])]])])]) =
      [("a.sol", [none])] :=
  ⟨by decide, by decide, by decide⟩

end SolAst
